import Mathlib

/-!
Verification of the Movement Lab fitness dashboard (`app.py`).

The dashboard loads a fixed-schema table of student fitness records, derives a
BMI category per row, filters rows by a selected set of names and an optional
BMI-category value, aggregates overview metrics, augments the view with a
relative-strength column for the strength tab, and exports the resulting view
as CSV.  Numeric dataframe cells are modelled as `Option ℚ` (`none` is a
missing value / NaN); tables are lists of records in insertion order.
-/

namespace MovementLab

/-- The four BMI band labels passed to `pd.cut` in `load_data`. -/
inductive BMICategory
  | Underweight
  | Normal
  | Overweight
  | Obese
deriving DecidableEq, Repr

/-- Embedding of `pd.cut(df['BMI'], bins=[0, 18.5, 25, 30, 100], labels=[...])`
for a single value: `pd.cut` with `right=True` buckets a value `b` into the
half-open interval `(lo, hi]` of consecutive bin edges, and yields a missing
label (NaN) for values outside `(0, 100]`. -/
def bmiCategory (b : ℚ) : Option BMICategory :=
  if 0 < b ∧ b ≤ 37/2 then some BMICategory.Underweight
  else if 37/2 < b ∧ b ≤ 25 then some BMICategory.Normal
  else if 25 < b ∧ b ≤ 30 then some BMICategory.Overweight
  else if 30 < b ∧ b ≤ 100 then some BMICategory.Obese
  else none

/-- One row of the source CSV `ML_school_testing_clean.csv`, with the column
schema used by `app.py`.  Every numeric cell may be missing (`none` models a
NaN cell); `Name` is the identity column. -/
structure Row where
  Name : String
  Height_cm : Option ℚ
  Weight_kg : Option ℚ
  BMI : Option ℚ
  Rel_Grip_perKg : Option ℚ
  UB_Strength_kg : Option ℚ
  LB_Squat_1min_reps : Option ℚ
  Flexibility_cm : Option ℚ
  MB_OH_Best_m : Option ℚ
  MB_OH_Mean_m : Option ℚ
  MB_OH_Trials : Option ℚ
deriving DecidableEq, Repr

/-- A loaded row: the source row plus the derived `BMI_Category` column added
by `load_data`.  A NaN `BMI` yields a NaN category, as `pd.cut` does. -/
structure LRow extends Row where
  BMI_Category : Option BMICategory
deriving DecidableEq, Repr

/-- Embedding of the row-wise effect of `load_data`: attach
`BMI_Category = pd.cut(BMI, ...)` to a source row. -/
def loadRow (r : Row) : LRow :=
  { r with BMI_Category := r.BMI.bind bmiCategory }

/-- Embedding of `load_data` on a whole table (the CSV read itself is not
modelled; the table is the function's input). -/
def load_data (t : List Row) : List LRow :=
  t.map loadRow

/-- The BMI-category selectbox value: the sentinel `'All'` or one concrete
category label. -/
inductive CatFilter
  | All
  | only (c : BMICategory)
deriving DecidableEq, Repr

/-- Embedding of the filter block of `app.py`:
`filtered_df = df[df['Name'].isin(selected_students)]` followed by
`if selected_bmi != 'All': filtered_df = filtered_df[filtered_df['BMI_Category'] == selected_bmi]`.
A NaN category compares unequal to every concrete label, exactly as the
pandas `==` comparison does. -/
def filterTable (t : List LRow) (selected_students : List String)
    (selected_bmi : CatFilter) : List LRow :=
  let filtered_df := t.filter (fun r => selected_students.contains r.Name)
  match selected_bmi with
  | CatFilter.All => filtered_df
  | CatFilter.only c => filtered_df.filter (fun r => r.BMI_Category = some c)

/-- The spec-side row predicate of §4.2: identity in the selected set AND
(`All`, or derived category equal to the selected one). -/
def specCatMatch : CatFilter → LRow → Bool
  | CatFilter.All, _ => true
  | CatFilter.only c, r => r.BMI_Category = some c

/-- The non-missing entries of a numeric column. -/
def presentCells (xs : List (Option ℚ)) : List ℚ :=
  xs.filterMap id

/-- Embedding of pandas `Series.mean` with the default `skipna=True`:
the arithmetic mean of the non-missing entries, NaN (modelled `none`) when
every entry is missing. -/
def seriesMean (xs : List (Option ℚ)) : Option ℚ :=
  if presentCells xs = [] then none
  else some ((presentCells xs).sum / (presentCells xs).length)

/-- Embedding of pandas `Series.max` with the default `skipna=True`:
the maximum of the non-missing entries, NaN (modelled `none`) when every
entry is missing. -/
def seriesMax (xs : List (Option ℚ)) : Option ℚ :=
  (presentCells xs).max?

/-- Embedding of Python `int(...)` applied to a pandas scalar: truncation
toward zero on a number, and a raised `ValueError` on NaN. -/
def pyInt : Option ℚ → Except String ℤ
  | none => Except.error "ValueError: cannot convert float NaN to integer"
  | some q => Except.ok (Int.tdiv q.num (q.den : ℤ))

/-- The four Overview metrics of tab 1. -/
structure Summary where
  count : ℕ
  avgBMI : Option ℚ
  avgRelGrip : Option ℚ
  maxSquatReps : Except String ℤ
deriving Repr

/-- Embedding of the Overview metric block of tab 1:
`len(filtered_df)`, `filtered_df['BMI'].mean()`,
`filtered_df['Rel_Grip_perKg'].mean()`, and
`int(filtered_df['LB_Squat_1min_reps'].max())`. -/
def summarize (view : List LRow) : Summary :=
  { count := view.length
    avgBMI := seriesMean (view.map (fun r => r.BMI))
    avgRelGrip := seriesMean (view.map (fun r => r.Rel_Grip_perKg))
    maxSquatReps := pyInt (seriesMax (view.map (fun r => r.LB_Squat_1min_reps))) }

/-- A source row with every numeric cell missing, for concrete instances. -/
def blankRow (name : String) : Row :=
  { Name := name, Height_cm := none, Weight_kg := none, BMI := none,
    Rel_Grip_perKg := none, UB_Strength_kg := none, LB_Squat_1min_reps := none,
    Flexibility_cm := none, MB_OH_Best_m := none, MB_OH_Mean_m := none,
    MB_OH_Trials := none }

/-- A loaded row whose only numeric cell is the squat-reps field. -/
def squatRow (name : String) (squat : Option ℚ) : LRow :=
  loadRow { blankRow name with LB_Squat_1min_reps := squat }

/-- The spec's example view: squat reps `[5, undefined, 8]`. -/
def exampleSquatView : List LRow :=
  [squatRow "a" (some 5), squatRow "b" none, squatRow "c" (some 8)]

/-- A loaded demo table with a single all-missing row. -/
def demoLTable : List LRow :=
  [loadRow (blankRow "Avery")]

/-- A loaded demo row with BMI, relative grip, and squat reps present. -/
def demoAggRow : LRow :=
  loadRow
    { blankRow "d" with
      BMI := some 22
      Rel_Grip_perKg := some (1/2)
      LB_Squat_1min_reps := some 8 }

/-- A tab-2 view row: a loaded row plus the derived relative-strength column
added at `app.py` line 99. -/
structure VRow extends LRow where
  Rel_Strength_perKg : Option ℚ
deriving DecidableEq, Repr

/-- Embedding of the tab-2 derived column
`filtered_df['Rel_Strength_perKg'] = filtered_df['UB_Strength_kg'] / filtered_df['Weight_kg']`:
a missing operand yields a missing result; numeric division is exact rational
division (no claim below depends on a zero-weight row). -/
def addRelStrength (r : LRow) : VRow :=
  { toLRow := r
    Rel_Strength_perKg :=
      match r.UB_Strength_kg, r.Weight_kg with
      | some u, some w => some (u / w)
      | _, _ => none }

/-- Sorting relation of `sort_values('Name')`: ascending identity. -/
def nameLE (a b : VRow) : Prop :=
  a.Name ≤ b.Name

instance : DecidableRel nameLE :=
  fun a b => inferInstanceAs (Decidable (a.Name ≤ b.Name))

instance : IsTotal VRow nameLE :=
  ⟨fun a b => le_total a.Name b.Name⟩

instance : IsTrans VRow nameLE :=
  ⟨fun _ _ _ h h' => le_trans h h'⟩

/-- Embedding of `filtered_df.sort_values('Name')`: sort rows by the identity
column, ascending. -/
def sort_values (v : List VRow) : List VRow :=
  List.insertionSort nameLE v

/-- Embedding of the tab-2 view reassignment (`app.py` lines 98–102): copy the
filtered view, add the derived `Rel_Strength_perKg` column, and sort by name.
Tabs 3 and 4 (throw charts, data explorer, exporter) consume this view. -/
def tab2View (v : List LRow) : List VRow :=
  sort_values (v.map addRelStrength)

/-- A loaded demo row named B, all numeric cells missing. -/
def rowB : LRow := loadRow (blankRow "B")

/-- A loaded demo row named A, all numeric cells missing. -/
def rowA : LRow := loadRow (blankRow "A")

/-- The characters that force quoting in the minimal-quoting CSV writer used
by `DataFrame.to_csv`: the delimiter `,` (code 44), the quote `"` (34), and
the line-terminator characters LF (10) and CR (13), identified here by their
code points. -/
def isCsvSpecial (ch : Char) : Bool :=
  ch.toNat = 44 || ch.toNat = 34 || ch.toNat = 10 || ch.toNat = 13

/-- Double each quote character, the CSV escape used inside a quoted field. -/
def escapeQuotes : List Char → List Char
  | [] => []
  | ch :: cs =>
    if ch = '\"' then '\"' :: '\"' :: escapeQuotes cs
    else ch :: escapeQuotes cs

/-- Minimal quoting of one cell, as `to_csv` does: a cell containing a
delimiter, quote, or line terminator is wrapped in quotes with inner quotes
doubled; every other cell is written verbatim. -/
def encodeCell (cell : List Char) : List Char :=
  if cell.any isCsvSpecial then '\"' :: (escapeQuotes cell ++ ['\"'])
  else cell

/-- Join encoded cells with the comma delimiter. -/
def joinCells : List (List Char) → List Char
  | [] => []
  | [cell] => cell
  | cell :: cells => cell ++ ',' :: joinCells cells

/-- One CSV record: its cells encoded and comma-joined. -/
def encodeRecord (cells : List (List Char)) : List Char :=
  joinCells (cells.map encodeCell)

/-- Embedding of `DataFrame.to_csv(index=False)` at the text level: one
comma-delimited line per record, each line terminated by a newline.  The
final `.encode('utf-8')` step is an injective character-to-byte map and is
not modelled further. -/
def csvEncode : List (List (List Char)) → List Char
  | [] => []
  | row :: rows => encodeRecord row ++ '\n' :: csvEncode rows

/-- Modelled from the spec: the splitting step of `parseTransferable`, which
is not part of the repository — split a character stream at every occurrence
of a separator (the empty stream yields one empty field). -/
def splitOnChar (sep : Char) : List Char → List (List Char)
  | [] => [[]]
  | ch :: cs =>
    if ch = sep then [] :: splitOnChar sep cs
    else
      match splitOnChar sep cs with
      | [] => [[ch]]
      | cell :: cells => (ch :: cell) :: cells

/-- Modelled from the spec: the tabular layer of `parseTransferable`, which
is not part of the repository — standard delimited-text decoding of unquoted
fields: records are the newline-terminated lines (the final newline closes
the last record), and cells within a record are comma-separated.  The
exports proved about below contain no quoted field. -/
def csvDecode (cs : List Char) : List (List (List Char)) :=
  ((splitOnChar '\n' cs).dropLast).map (splitOnChar ',')

/-- A cell that needs no quoting: free of delimiter, quote, and terminators. -/
def simpleCell (cell : List Char) : Prop :=
  ∀ ch ∈ cell, isCsvSpecial ch = false

instance (cell : List Char) : Decidable (simpleCell cell) :=
  inferInstanceAs (Decidable (∀ ch ∈ cell, isCsvSpecial ch = false))

/-- ASCII digit character for a digit value below 10. -/
def digitChar (d : ℕ) : Char :=
  Char.ofNat (48 + d)

/-- Digit value of an ASCII digit character. -/
def charDigit (ch : Char) : ℕ :=
  ch.toNat - 48

/-- Decimal rendering of a natural number, most significant digit first. -/
def natChars (n : ℕ) : List Char :=
  if n = 0 then ['0'] else ((Nat.digits 10 n).map digitChar).reverse

/-- Modelled from the spec: decimal parse of a natural number, the inverse of
`natChars` on its image (`parseTransferable` is not part of the repository). -/
def parseNat (cs : List Char) : ℕ :=
  Nat.ofDigits 10 ((cs.map charDigit).reverse)

/-- Decimal rendering of an integer: optional minus sign, then digits. -/
def intChars (i : ℤ) : List Char :=
  if i < 0 then '-' :: natChars i.natAbs else natChars i.natAbs

/-- Modelled from the spec: decimal parse of an integer, the inverse of
`intChars` on its image. -/
def parseInt (cs : List Char) : ℤ :=
  match cs with
  | '-' :: rest => -(parseNat rest : ℤ)
  | _ => (parseNat cs : ℤ)

/-- Numeric cell text for an exact rational: integers as plain decimals,
non-integers as `num/den`.  This stands in for the shortest-round-trip float
repr written by `to_csv` — the claims compare values "modulo the declared
numeric precision", and this rendering is an injective encoding with inverse
`parseRat`. -/
def ratChars (q : ℚ) : List Char :=
  if q.den = 1 then intChars q.num
  else intChars q.num ++ '/' :: natChars q.den

/-- Modelled from the spec: numeric parse of a rational cell, the inverse of
`ratChars` on its image. -/
def parseRat (cs : List Char) : ℚ :=
  match splitOnChar '/' cs with
  | [a, b] => (parseInt a : ℚ) / (parseNat b : ℚ)
  | _ => (parseInt cs : ℚ)

/-- An ASCII digit character, identified by its code point range 48–57. -/
def isDigitCh (ch : Char) : Bool :=
  decide (48 ≤ ch.toNat) && decide (ch.toNat ≤ 57)

/-- Text of one numeric dataframe cell: empty for a missing value. -/
def valueCell : Option ℚ → List Char
  | none => []
  | some q => ratChars q

/-- Modelled from the spec: inverse of `valueCell` — an empty cell reads back
as a missing value (as `read_csv` yields NaN there). -/
def parseValueCell (cs : List Char) : Option ℚ :=
  if cs = [] then none else some (parseRat cs)

/-- The label text `pd.cut` attaches for each band, as written by `to_csv`. -/
def categoryLabel : BMICategory → List Char
  | BMICategory.Underweight => "Underweight".data
  | BMICategory.Normal => "Normal".data
  | BMICategory.Overweight => "Overweight".data
  | BMICategory.Obese => "Obese".data

/-- Text of the `BMI_Category` cell: empty for an absent category. -/
def categoryCell : Option BMICategory → List Char
  | none => []
  | some c => categoryLabel c

/-- Modelled from the spec: inverse of `categoryCell` — recognize the four
band labels, the empty cell as an absent category, and fail otherwise. -/
def parseCategoryCell (cs : List Char) : Option (Option BMICategory) :=
  if cs = [] then some none
  else if cs = categoryLabel BMICategory.Underweight then
    some (some BMICategory.Underweight)
  else if cs = categoryLabel BMICategory.Normal then
    some (some BMICategory.Normal)
  else if cs = categoryLabel BMICategory.Overweight then
    some (some BMICategory.Overweight)
  else if cs = categoryLabel BMICategory.Obese then
    some (some BMICategory.Obese)
  else none

/-- The cell texts of one exported row, in the dataframe's column order: the
eleven source columns, then `BMI_Category` (added at load), then
`Rel_Strength_perKg` (added in tab 2). -/
def rowCells (r : VRow) : List (List Char) :=
  [r.Name.data, valueCell r.Height_cm, valueCell r.Weight_kg,
   valueCell r.BMI, valueCell r.Rel_Grip_perKg, valueCell r.UB_Strength_kg,
   valueCell r.LB_Squat_1min_reps, valueCell r.Flexibility_cm,
   valueCell r.MB_OH_Best_m, valueCell r.MB_OH_Mean_m,
   valueCell r.MB_OH_Trials, categoryCell r.BMI_Category,
   valueCell r.Rel_Strength_perKg]

/-- Modelled from the spec: inverse of `rowCells` — reconstruct a record from
thirteen cells, failing on any other shape or unknown category text. -/
def parseRowCells : List (List Char) → Option VRow
  | [name, height, weight, bmi, grip, ub, squat, flex, best, meand, trials,
     cat, rel] =>
    (parseCategoryCell cat).map (fun c =>
      { Name := String.mk name
        Height_cm := parseValueCell height
        Weight_kg := parseValueCell weight
        BMI := parseValueCell bmi
        Rel_Grip_perKg := parseValueCell grip
        UB_Strength_kg := parseValueCell ub
        LB_Squat_1min_reps := parseValueCell squat
        Flexibility_cm := parseValueCell flex
        MB_OH_Best_m := parseValueCell best
        MB_OH_Mean_m := parseValueCell meand
        MB_OH_Trials := parseValueCell trials
        BMI_Category := c
        Rel_Strength_perKg := parseValueCell rel })
  | _ => none

/-- The column names of the loaded table: the source schema plus the
`BMI_Category` column that `load_data` appends. -/
def loadedHeader : List (List Char) :=
  ["Name".data, "Height_cm".data, "Weight_kg".data, "BMI".data,
   "Rel_Grip_perKg".data, "UB_Strength_kg".data, "LB_Squat_1min_reps".data,
   "Flexibility_cm".data, "MB_OH_Best_m".data, "MB_OH_Mean_m".data,
   "MB_OH_Trials".data, "BMI_Category".data]

/-- The header row the exporter writes: the column names of the dataframe it
receives — the loaded schema plus tab 2's `Rel_Strength_perKg`. -/
def exportHeader : List (List Char) :=
  loadedHeader ++ ["Rel_Strength_perKg".data]

/-- Embedding of `convert_df_to_csv` (`app.py` lines 215–217):
`df.to_csv(index=False).encode('utf-8')` on the view tab 4 receives — header
row first, then one line per record.  The `@st.cache_data` memoization has no
observable effect on the produced bytes and is not modelled. -/
def convert_df_to_csv (v : List VRow) : List Char :=
  csvEncode (exportHeader :: v.map rowCells)

/-- Modelled from the spec: `parseTransferable` — decode the delimited text,
check the header, and reconstruct each record; fails on a header mismatch or
an unparseable record. -/
def parseTransferable (cs : List Char) : Option (List VRow) :=
  match csvDecode cs with
  | [] => none
  | header :: records =>
    if header = exportHeader then records.mapM parseRowCells else none

/-- A one-row demo view of the export stage. -/
def demoExportView : List VRow :=
  [addRelStrength demoAggRow]

/-- The two sequential pandas filters collapse to a single pass with the
conjunction of both predicates. -/
lemma filterTable_eq_filter (t : List LRow) (S : List String) (C : CatFilter) :
    filterTable t S C =
      t.filter (fun r => S.contains r.Name && specCatMatch C r) := by
  cases C with
  | All => simp [filterTable, specCatMatch]
  | only c => simp [filterTable, specCatMatch, List.filter_filter, Bool.and_comm]

/-- Claim C1: the derived category function maps every BMI value into exactly
one of four half-open bands — `(0, 18.5]` Underweight, `(18.5, 25]` Normal,
`(25, 30]` Overweight, `(30, 100]` Obese — any value outside `(0, 100]` and a
missing BMI yield an absent category, and the example inputs
`[17.0, 22.0, 27.0, 33.0, 50.5]` yield
`[Underweight, Normal, Overweight, Obese, Obese]`. -/
theorem C1_bmi_category_bands (b : ℚ) :
    (0 < b → b ≤ 37/2 → bmiCategory b = some BMICategory.Underweight) ∧
    (37/2 < b → b ≤ 25 → bmiCategory b = some BMICategory.Normal) ∧
    (25 < b → b ≤ 30 → bmiCategory b = some BMICategory.Overweight) ∧
    (30 < b → b ≤ 100 → bmiCategory b = some BMICategory.Obese) ∧
    (¬ (0 < b ∧ b ≤ 100) → bmiCategory b = none) ∧
    (Option.bind (none : Option ℚ) bmiCategory = none) ∧
    ([(17 : ℚ), 22, 27, 33, 50.5].map bmiCategory =
      [some BMICategory.Underweight, some BMICategory.Normal,
       some BMICategory.Overweight, some BMICategory.Obese,
       some BMICategory.Obese]) := by
  refine ⟨?_, ?_, ?_, ?_, ?_, rfl, by norm_num [bmiCategory]⟩
  · intro h1 h2
    rw [bmiCategory, if_pos ⟨h1, h2⟩]
  · intro h1 h2
    have n1 : ¬ (0 < b ∧ b ≤ 37/2) := fun hc => absurd h1 (not_lt.mpr hc.2)
    rw [bmiCategory, if_neg n1, if_pos ⟨h1, h2⟩]
  · intro h1 h2
    have n1 : ¬ (0 < b ∧ b ≤ 37/2) := fun hc => by linarith [hc.2]
    have n2 : ¬ (37/2 < b ∧ b ≤ 25) := fun hc => absurd h1 (not_lt.mpr hc.2)
    rw [bmiCategory, if_neg n1, if_neg n2, if_pos ⟨h1, h2⟩]
  · intro h1 h2
    have n1 : ¬ (0 < b ∧ b ≤ 37/2) := fun hc => by linarith [hc.2]
    have n2 : ¬ (37/2 < b ∧ b ≤ 25) := fun hc => by linarith [hc.2]
    have n3 : ¬ (25 < b ∧ b ≤ 30) := fun hc => absurd h1 (not_lt.mpr hc.2)
    rw [bmiCategory, if_neg n1, if_neg n2, if_neg n3, if_pos ⟨h1, h2⟩]
  · intro h
    have n1 : ¬ (0 < b ∧ b ≤ 37/2) := fun hc => h ⟨hc.1, by linarith [hc.2]⟩
    have n2 : ¬ (37/2 < b ∧ b ≤ 25) := fun hc => h ⟨by linarith [hc.1], by linarith [hc.2]⟩
    have n3 : ¬ (25 < b ∧ b ≤ 30) := fun hc => h ⟨by linarith [hc.1], by linarith [hc.2]⟩
    have n4 : ¬ (30 < b ∧ b ≤ 100) := fun hc => h ⟨by linarith [hc.1], hc.2⟩
    rw [bmiCategory, if_neg n1, if_neg n2, if_neg n3, if_neg n4]

/-- Witness for C1 at the concrete BMI value 17. -/
theorem C1_bmi_category_bands_witness :
    bmiCategory 17 = some BMICategory.Underweight :=
  (C1_bmi_category_bands 17).1 (by norm_num) (by norm_num)

/-- Claim C2, checked against the code (refuted): on the empty view the count
is 0 and both mean metrics are the absent marker, but the max-squat metric is
a raised `ValueError` — `int(max_squat)` with `max_squat = NaN` — rather than
an absent marker; the same error occurs on every view in which no row has the
squat-reps field. -/
theorem C2_empty_view_overview_raises :
    (summarize []).count = 0 ∧ (summarize []).avgBMI = none ∧
    (summarize []).avgRelGrip = none ∧
    (summarize []).maxSquatReps =
      Except.error "ValueError: cannot convert float NaN to integer" ∧
    (∀ view : List LRow, (∀ r ∈ view, r.LB_Squat_1min_reps = none) →
      (summarize view).maxSquatReps =
        Except.error "ValueError: cannot convert float NaN to integer") := by
  refine ⟨rfl, rfl, rfl, rfl, ?_⟩
  intro view h
  have hnil : presentCells (view.map (fun r => r.LB_Squat_1min_reps)) = [] := by
    rw [presentCells, List.filterMap_eq_nil_iff]
    intro x hx
    rcases List.mem_map.mp hx with ⟨r, hr, rfl⟩
    exact h r hr
  simp [summarize, seriesMax, hnil, pyInt]

/-- Witness for C2's universally quantified conjunct, at a one-row view whose
squat cell is missing. -/
theorem C2_empty_view_overview_raises_witness :
    (summarize [squatRow "b" none]).maxSquatReps =
      Except.error "ValueError: cannot convert float NaN to integer" :=
  C2_empty_view_overview_raises.2.2.2.2 [squatRow "b" none] (by decide)

/-- Claim C3: the filter operation returns exactly the rows whose identity is
in the selected set and whose stored category matches the category argument
(with `All` matching everything), in source-table order; with a selected set
covering every row and the `All` argument it returns the full table. -/
theorem C3_filter_exact (t : List LRow) (S : List String) (C : CatFilter) :
    filterTable t S C =
      t.filter (fun r => S.contains r.Name && specCatMatch C r) ∧
    (filterTable t S C).Sublist t ∧
    ((∀ r ∈ t, r.Name ∈ S) → filterTable t S CatFilter.All = t) := by
  refine ⟨filterTable_eq_filter t S C, ?_, ?_⟩
  · rw [filterTable_eq_filter]
    exact List.filter_sublist t
  · intro h
    rw [filterTable_eq_filter]
    apply List.filter_eq_self.mpr
    intro r hr
    simp [specCatMatch, h r hr]

/-- Witness for C3's full-selection conjunct at a concrete table. -/
theorem C3_filter_exact_witness :
    filterTable demoLTable ["Avery"] CatFilter.All = demoLTable :=
  (C3_filter_exact demoLTable ["Avery"] CatFilter.All).2.2 (by decide)

/-- Claim C6: filtering is idempotent — filtering an already-filtered view
again with the same selected names and category argument changes nothing. -/
theorem C6_filter_idempotent (t : List LRow) (S : List String) (C : CatFilter) :
    filterTable (filterTable t S C) S C = filterTable t S C := by
  rw [filterTable_eq_filter, filterTable_eq_filter, List.filter_filter]
  simp only [Bool.and_self]

/-- Claim C7: every filtered view is a subset of the loaded table, and the
empty selected-name set yields the empty view for every category argument. -/
theorem C7_view_subset_and_empty_selection (t : List LRow) (C : CatFilter)
    (S : List String) :
    (∀ r ∈ filterTable t S C, r ∈ t) ∧ filterTable t [] C = [] := by
  constructor
  · intro r hr
    rw [filterTable_eq_filter] at hr
    exact (List.mem_filter.mp hr).1
  · rw [filterTable_eq_filter]
    simp

/-- Witness for C7 at a concrete table, row, and category argument. -/
theorem C7_view_subset_and_empty_selection_witness :
    loadRow (blankRow "Avery") ∈ demoLTable ∧
    filterTable demoLTable [] (CatFilter.only BMICategory.Obese) = [] :=
  ⟨(C7_view_subset_and_empty_selection demoLTable CatFilter.All ["Avery"]).1
      (loadRow (blankRow "Avery")) (by decide),
   (C7_view_subset_and_empty_selection demoLTable
      (CatFilter.only BMICategory.Obese) ["Avery"]).2⟩

/-- A category result carries the band's bounds: the value is in `(0, 100]`. -/
lemma bmiCategory_bounds {b : ℚ} {c : BMICategory}
    (h : bmiCategory b = some c) : 0 < b ∧ b ≤ 100 := by
  rw [bmiCategory] at h
  split_ifs at h with h1 h2 h3 h4
  · exact ⟨h1.1, by linarith [h1.2]⟩
  · exact ⟨by linarith [h2.1], by linarith [h2.2]⟩
  · exact ⟨by linarith [h3.1], by linarith [h3.2]⟩
  · exact ⟨by linarith [h4.1], h4.2⟩

/-- Claim C10: a concrete-category view never contains a row with an absent
category: each of its rows carries exactly the selected category, and its BMI
cell is present with a value inside `(0, 100]`. -/
theorem C10_concrete_category_views_exclude_absent (t : List Row)
    (S : List String) (c : BMICategory) :
    ∀ r ∈ filterTable (load_data t) S (CatFilter.only c),
      r.BMI_Category = some c ∧ ∃ b : ℚ, r.BMI = some b ∧ 0 < b ∧ b ≤ 100 := by
  intro r hr
  rw [filterTable_eq_filter] at hr
  rcases List.mem_filter.mp hr with ⟨hmem, hpred⟩
  rcases Bool.and_eq_true_iff.mp hpred with ⟨-, hcatb⟩
  have hcat : r.BMI_Category = some c := by
    simpa [specCatMatch] using hcatb
  refine ⟨hcat, ?_⟩
  rcases List.mem_map.mp hmem with ⟨r0, _, rfl⟩
  have hbind : r0.BMI.bind bmiCategory = some c := hcat
  rcases Option.bind_eq_some.mp hbind with ⟨b, hb, hbc⟩
  obtain ⟨hlo, hhi⟩ := bmiCategory_bounds hbc
  exact ⟨b, hb, hlo, hhi⟩

/-- Witness for C10 at a one-row table with BMI 22 filtered to Normal. -/
theorem C10_concrete_category_views_exclude_absent_witness :
    (loadRow { blankRow "N" with BMI := some 22 }).BMI_Category =
      some BMICategory.Normal ∧
    ∃ b : ℚ, (loadRow { blankRow "N" with BMI := some 22 }).BMI = some b ∧
      0 < b ∧ b ≤ 100 := by
  have hb22 : bmiCategory 22 = some BMICategory.Normal := by
    norm_num [bmiCategory]
  refine C10_concrete_category_views_exclude_absent
    [{ blankRow "N" with BMI := some 22 }] ["N"] BMICategory.Normal
    (loadRow { blankRow "N" with BMI := some 22 }) ?_
  rw [filterTable_eq_filter]
  simp [load_data, specCatMatch, loadRow, blankRow, hb22]

/-- Claim C8: the aggregates skip missing values — each mean is the arithmetic
mean over only the rows where the field is present, the squat maximum is the
maximum over only the present values, and the spec's 3-row example with squat
reps `[5, undefined, 8]` yields a max of 8. -/
theorem C8_aggregates_skip_missing (view : List LRow) :
    (presentCells (view.map (fun r => r.BMI)) ≠ [] →
      (summarize view).avgBMI =
        some ((presentCells (view.map (fun r => r.BMI))).sum /
          (presentCells (view.map (fun r => r.BMI))).length)) ∧
    (presentCells (view.map (fun r => r.Rel_Grip_perKg)) ≠ [] →
      (summarize view).avgRelGrip =
        some ((presentCells (view.map (fun r => r.Rel_Grip_perKg))).sum /
          (presentCells (view.map (fun r => r.Rel_Grip_perKg))).length)) ∧
    (∀ q, seriesMax (view.map (fun r => r.LB_Squat_1min_reps)) = some q →
      q ∈ presentCells (view.map (fun r => r.LB_Squat_1min_reps)) ∧
      ∀ x ∈ presentCells (view.map (fun r => r.LB_Squat_1min_reps)), x ≤ q) ∧
    (summarize exampleSquatView).maxSquatReps = Except.ok 8 := by
  refine ⟨?_, ?_, ?_, ?_⟩
  · intro h
    simp [summarize, seriesMean, if_neg h]
  · intro h
    simp [summarize, seriesMean, if_neg h]
  · intro q h
    haveI : Std.Antisymm ((· : ℚ) ≤ ·) := ⟨fun h h' => le_antisymm h h'⟩
    rw [seriesMax] at h
    rw [List.max?_eq_some_iff (fun a => le_refl a) (fun a b => max_choice a b)
      (fun _ _ _ => max_le_iff)] at h
    exact h
  · rfl

/-- Witness for C8 at a concrete one-row view with all three fields present. -/
theorem C8_aggregates_skip_missing_witness :
    (summarize [demoAggRow]).avgBMI =
      some ((presentCells ([demoAggRow].map (fun r => r.BMI))).sum /
        (presentCells ([demoAggRow].map (fun r => r.BMI))).length) ∧
    (summarize [demoAggRow]).avgRelGrip =
      some ((presentCells ([demoAggRow].map (fun r => r.Rel_Grip_perKg))).sum /
        (presentCells ([demoAggRow].map (fun r => r.Rel_Grip_perKg))).length) ∧
    ((8 : ℚ) ∈
      presentCells ([demoAggRow].map (fun r => r.LB_Squat_1min_reps)) ∧
      ∀ x ∈ presentCells ([demoAggRow].map (fun r => r.LB_Squat_1min_reps)),
        x ≤ 8) :=
  ⟨(C8_aggregates_skip_missing [demoAggRow]).1 (by decide),
   (C8_aggregates_skip_missing [demoAggRow]).2.1 (by decide),
   (C8_aggregates_skip_missing [demoAggRow]).2.2.1 8 (by decide)⟩

/-- Counterexample to claim C9 as stated: for a two-row table whose names
arrive in the order B, A, the view passed to the throw charts, data explorer,
and exporter is not the value the Filter Engine produced — the tab-2 stage
re-sorts it by name (and adds a column, forgotten here by projecting back). -/
theorem C9_counterexample :
    (tab2View (filterTable [rowB, rowA] ["A", "B"] CatFilter.All)).map
        (fun r => r.toLRow) ≠
      filterTable [rowB, rowA] ["A", "B"] CatFilter.All := by
  simp only [filterTable, tab2View, sort_values, List.insertionSort,
    List.orderedInsert, nameLE, rowA, rowB, blankRow, loadRow, addRelStrength,
    String.le_iff_toList_le, List.filter, List.map]
  decide

/-- Claim C9 amended: no stage mutates the Filter Engine's output in place
(the tab-2 stage copies), but the view the throw charts, data explorer, and
exporter receive is the filter output extended with `Rel_Strength_perKg` and
re-sorted by ascending name: forgetting the added column it is a permutation
of the filter output, sorted by name, and every row of it comes from the
filter output. -/
theorem C9_amended_downstream_view (t : List LRow) (S : List String)
    (C : CatFilter) :
    ((tab2View (filterTable t S C)).map (fun r => r.toLRow)).Perm
        (filterTable t S C) ∧
    List.Sorted nameLE (tab2View (filterTable t S C)) ∧
    (∀ r ∈ tab2View (filterTable t S C), r.toLRow ∈ filterTable t S C) := by
  have hperm : (tab2View (filterTable t S C)).Perm
      ((filterTable t S C).map addRelStrength) :=
    List.perm_insertionSort nameLE ((filterTable t S C).map addRelStrength)
  have hmap : ((filterTable t S C).map addRelStrength).map (fun r => r.toLRow) =
      filterTable t S C := by
    rw [List.map_map]
    have hfun : ((fun r : VRow => r.toLRow) ∘ addRelStrength) = id :=
      funext fun r => rfl
    rw [hfun, List.map_id]
  refine ⟨?_, List.sorted_insertionSort nameLE _, ?_⟩
  · have h' := hperm.map (fun r => r.toLRow)
    rwa [hmap] at h'
  · intro r hr
    have hr' : r ∈ (filterTable t S C).map addRelStrength :=
      hperm.mem_iff.mp hr
    rcases List.mem_map.mp hr' with ⟨r0, hr0, rfl⟩
    simpa using hr0

/-- Witness for C9's amended membership conjunct at the two-row demo table. -/
theorem C9_amended_downstream_view_witness :
    (addRelStrength rowA).toLRow ∈
      filterTable [rowB, rowA] ["A", "B"] CatFilter.All :=
  (C9_amended_downstream_view [rowB, rowA] ["A", "B"] CatFilter.All).2.2
    (addRelStrength rowA)
    (by
      simp only [filterTable, tab2View, sort_values, List.insertionSort,
        List.orderedInsert, nameLE, rowA, rowB, blankRow, loadRow,
        addRelStrength, String.le_iff_toList_le, List.filter, List.map]
      decide)

lemma encodeCell_of_simple {cell : List Char} (h : simpleCell cell) :
    encodeCell cell = cell := by
  rw [encodeCell, if_neg]
  simp only [List.any_eq_true, not_exists, not_and]
  intro ch hch
  simp [h ch hch]

lemma splitOnChar_ne_nil (sep : Char) (cs : List Char) :
    splitOnChar sep cs ≠ [] := by
  induction cs with
  | nil => simp [splitOnChar]
  | cons ch cs ih =>
    rw [splitOnChar]
    split_ifs
    · simp
    · rcases hs : splitOnChar sep cs with - | ⟨cell, cells⟩
      · exact absurd hs ih
      · simp [hs]

lemma splitOnChar_of_not_mem {sep : Char} {cs : List Char} (h : sep ∉ cs) :
    splitOnChar sep cs = [cs] := by
  induction cs with
  | nil => rfl
  | cons ch cs ih =>
    rw [splitOnChar,
      if_neg (fun hc => h (by rw [← hc]; exact List.mem_cons_self ch cs)),
      ih (fun hc => h (List.mem_cons_of_mem ch hc))]

lemma splitOnChar_append {sep : Char} {l : List Char} (h : sep ∉ l)
    (r : List Char) :
    splitOnChar sep (l ++ sep :: r) = l :: splitOnChar sep r := by
  induction l with
  | nil => simp [splitOnChar]
  | cons ch l ih =>
    rw [List.cons_append, splitOnChar,
      if_neg (fun hc => h (by rw [← hc]; exact List.mem_cons_self ch l)),
      ih (fun hc => h (List.mem_cons_of_mem ch hc))]

lemma joinCells_cons_cons (c c' : List Char) (cells : List (List Char)) :
    joinCells (c :: c' :: cells) = c ++ ',' :: joinCells (c' :: cells) :=
  rfl

lemma mem_joinCells {x : Char} {cells : List (List Char)}
    (hx : x ∈ joinCells cells) : x = ',' ∨ ∃ c ∈ cells, x ∈ c := by
  induction cells with
  | nil => simp [joinCells] at hx
  | cons c cells ih =>
    rcases cells with - | ⟨c', cells'⟩
    · exact Or.inr ⟨c, List.mem_cons_self c [], hx⟩
    · rw [joinCells_cons_cons] at hx
      rcases List.mem_append.mp hx with h1 | h2
      · exact Or.inr ⟨c, List.mem_cons_self c _, h1⟩
      · rcases List.mem_cons.mp h2 with rfl | h3
        · exact Or.inl rfl
        · rcases ih h3 with h4 | ⟨c'', hc'', hx''⟩
          · exact Or.inl h4
          · exact Or.inr ⟨c'', List.mem_cons_of_mem c hc'', hx''⟩

lemma splitOnChar_joinCells {cells : List (List Char)}
    (h : ∀ c ∈ cells, ',' ∉ c) (hne : cells ≠ []) :
    splitOnChar ',' (joinCells cells) = cells := by
  induction cells with
  | nil => exact absurd rfl hne
  | cons c cells ih =>
    rcases cells with - | ⟨c', cells'⟩
    · exact splitOnChar_of_not_mem (h c (List.mem_cons_self c []))
    · rw [joinCells_cons_cons, splitOnChar_append (h c (List.mem_cons_self c _)),
        ih (fun x hx => h x (List.mem_cons_of_mem c hx)) (by simp)]

lemma simpleCell_comma_not_mem {cell : List Char} (h : simpleCell cell) :
    ',' ∉ cell :=
  fun hc => by simpa [isCsvSpecial] using h ',' hc

lemma simpleCell_newline_not_mem {cell : List Char} (h : simpleCell cell) :
    '\n' ∉ cell :=
  fun hc => by simpa [isCsvSpecial] using h '\n' hc

lemma encodeRecord_newline_not_mem {cells : List (List Char)}
    (h : ∀ c ∈ cells, simpleCell c) : '\n' ∉ encodeRecord cells := by
  intro hmem
  rw [encodeRecord] at hmem
  rcases mem_joinCells hmem with h1 | ⟨c, hc, hx⟩
  · exact absurd h1 (by decide)
  · rcases List.mem_map.mp hc with ⟨c0, hc0, rfl⟩
    rw [encodeCell_of_simple (h c0 hc0)] at hx
    exact simpleCell_newline_not_mem (h c0 hc0) hx

lemma encodeRecord_of_simple {cells : List (List Char)}
    (h : ∀ c ∈ cells, simpleCell c) :
    encodeRecord cells = joinCells cells := by
  rw [encodeRecord]
  congr 1
  have h1 : List.map encodeCell cells = List.map (fun c => c) cells :=
    List.map_congr_left (fun c hc => encodeCell_of_simple (h c hc))
  rw [h1, List.map_id']

/-- Exported simple-celled tables decode back to themselves: the structural
round trip of the CSV text layer. -/
lemma csvDecode_csvEncode {g : List (List (List Char))}
    (hc : ∀ row ∈ g, ∀ cell ∈ row, simpleCell cell)
    (hr : ∀ row ∈ g, row ≠ []) :
    csvDecode (csvEncode g) = g := by
  induction g with
  | nil => rfl
  | cons row rows ih =>
    have hrow : ∀ c ∈ row, simpleCell c := hc row (List.mem_cons_self row rows)
    have hsplit : splitOnChar '\n' (csvEncode (row :: rows)) =
        encodeRecord row :: splitOnChar '\n' (csvEncode rows) := by
      rw [csvEncode]
      exact splitOnChar_append (encodeRecord_newline_not_mem hrow) _
    have ihres := ih (fun r hr' c hcell => hc r (List.mem_cons_of_mem row hr') c hcell)
      (fun r hr' => hr r (List.mem_cons_of_mem row hr'))
    rw [csvDecode] at ihres ⊢
    rw [hsplit, List.dropLast_cons_of_ne_nil (splitOnChar_ne_nil '\n' _),
      List.map_cons, ihres]
    congr 1
    rw [encodeRecord_of_simple hrow]
    exact splitOnChar_joinCells
      (fun c hcell => simpleCell_comma_not_mem (hrow c hcell))
      (hr row (List.mem_cons_self row rows))

lemma isDigitCh_digitChar {d : ℕ} (h : d < 10) :
    isDigitCh (digitChar d) = true := by
  interval_cases d <;> rfl

lemma charDigit_digitChar {d : ℕ} (h : d < 10) :
    charDigit (digitChar d) = d := by
  interval_cases d <;> rfl

lemma natChars_digits (n : ℕ) : ∀ ch ∈ natChars n, isDigitCh ch = true := by
  intro ch hch
  rw [natChars] at hch
  split_ifs at hch with h0
  · rcases List.mem_singleton.mp hch with rfl
    rfl
  · rcases List.mem_map.mp (List.mem_reverse.mp hch) with ⟨d, hd, rfl⟩
    exact isDigitCh_digitChar (Nat.digits_lt_base (by norm_num) hd)

lemma natChars_ne_nil (n : ℕ) : natChars n ≠ [] := by
  rw [natChars]
  split_ifs with h0
  · simp
  · simp [Nat.digits_ne_nil_iff_ne_zero.mpr h0]

lemma parseNat_natChars (n : ℕ) : parseNat (natChars n) = n := by
  rw [natChars]
  split_ifs with h0
  · rw [h0]; rfl
  · rw [parseNat, List.map_reverse, List.reverse_reverse, List.map_map]
    have hmap : (Nat.digits 10 n).map (charDigit ∘ digitChar) =
        (Nat.digits 10 n).map (fun d => d) :=
      List.map_congr_left (fun d hd =>
        charDigit_digitChar (Nat.digits_lt_base (by norm_num) hd))
    rw [hmap, List.map_id', Nat.ofDigits_digits]

lemma minus_not_mem_natChars (n : ℕ) : '-' ∉ natChars n := by
  intro h
  have := natChars_digits n '-' h
  exact absurd this (by decide)

lemma slash_not_mem_natChars (n : ℕ) : '/' ∉ natChars n := by
  intro h
  have := natChars_digits n '/' h
  exact absurd this (by decide)

lemma slash_not_mem_intChars (i : ℤ) : '/' ∉ intChars i := by
  rw [intChars]
  split_ifs
  · intro h
    rcases List.mem_cons.mp h with h1 | h2
    · exact absurd h1 (by decide)
    · exact slash_not_mem_natChars _ h2
  · exact slash_not_mem_natChars _

lemma intChars_ne_nil (i : ℤ) : intChars i ≠ [] := by
  rw [intChars]
  split_ifs
  · simp
  · exact natChars_ne_nil _

lemma parseInt_cons_minus (rest : List Char) :
    parseInt ('-' :: rest) = -(parseNat rest : ℤ) :=
  rfl

lemma parseInt_eq_parseNat {cs : List Char} (h : '-' ∉ cs) :
    parseInt cs = (parseNat cs : ℤ) := by
  unfold parseInt
  split
  · rename_i rest heq
    exact absurd (List.mem_cons_self '-' heq) h
  · rfl

lemma parseInt_intChars (i : ℤ) : parseInt (intChars i) = i := by
  rw [intChars]
  split_ifs with hneg
  · rw [parseInt_cons_minus, parseNat_natChars]
    omega
  · rw [parseInt_eq_parseNat (minus_not_mem_natChars i.natAbs),
      parseNat_natChars]
    omega

lemma parseRat_ratChars (q : ℚ) : parseRat (ratChars q) = q := by
  rw [ratChars]
  split_ifs with hden
  · have hs : splitOnChar '/' (intChars q.num) = [intChars q.num] :=
      splitOnChar_of_not_mem (slash_not_mem_intChars q.num)
    unfold parseRat
    rw [hs]
    show ((parseInt (intChars q.num) : ℤ) : ℚ) = q
    rw [parseInt_intChars]
    exact Rat.coe_int_num_of_den_eq_one hden
  · have hs : splitOnChar '/' (intChars q.num ++ '/' :: natChars q.den) =
        [intChars q.num, natChars q.den] := by
      rw [splitOnChar_append (slash_not_mem_intChars q.num),
        splitOnChar_of_not_mem (slash_not_mem_natChars q.den)]
    unfold parseRat
    rw [hs]
    show ((parseInt (intChars q.num) : ℤ) : ℚ) /
        ((parseNat (natChars q.den) : ℕ) : ℚ) = q
    rw [parseInt_intChars, parseNat_natChars]
    exact Rat.num_div_den q

lemma ratChars_ne_nil (q : ℚ) : ratChars q ≠ [] := by
  rw [ratChars]
  split_ifs
  · exact intChars_ne_nil q.num
  · rcases hn : intChars q.num with - | ⟨ch, rest⟩
    · exact absurd hn (intChars_ne_nil q.num)
    · simp

lemma simpleCell_of_digits {cs : List Char}
    (h : ∀ ch ∈ cs, isDigitCh ch = true) : simpleCell cs := by
  intro ch hch
  have hd := h ch hch
  rw [isDigitCh, Bool.and_eq_true, decide_eq_true_eq, decide_eq_true_eq] at hd
  rw [isCsvSpecial]
  simp only [Bool.or_eq_false_iff, decide_eq_false_iff_not]
  omega

lemma simpleCell_natChars (n : ℕ) : simpleCell (natChars n) :=
  simpleCell_of_digits (natChars_digits n)

lemma simpleCell_intChars (i : ℤ) : simpleCell (intChars i) := by
  rw [intChars]
  split_ifs
  · intro ch hch
    rcases List.mem_cons.mp hch with rfl | h2
    · rfl
    · exact simpleCell_natChars i.natAbs ch h2
  · exact simpleCell_natChars i.natAbs

lemma simpleCell_ratChars (q : ℚ) : simpleCell (ratChars q) := by
  rw [ratChars]
  split_ifs
  · exact simpleCell_intChars q.num
  · intro ch hch
    rcases List.mem_append.mp hch with h1 | h2
    · exact simpleCell_intChars q.num ch h1
    · rcases List.mem_cons.mp h2 with rfl | h3
      · rfl
      · exact simpleCell_natChars q.den ch h3

lemma parseValueCell_valueCell (x : Option ℚ) :
    parseValueCell (valueCell x) = x := by
  cases x with
  | none => rfl
  | some q =>
    rw [valueCell, parseValueCell, if_neg (ratChars_ne_nil q),
      parseRat_ratChars]

lemma simpleCell_valueCell (x : Option ℚ) : simpleCell (valueCell x) := by
  cases x with
  | none => intro ch hch; simp [valueCell] at hch
  | some q => exact simpleCell_ratChars q

lemma parseCategoryCell_categoryCell (x : Option BMICategory) :
    parseCategoryCell (categoryCell x) = some x := by
  cases x with
  | none => rfl
  | some c => cases c <;> decide

lemma simpleCell_categoryCell (x : Option BMICategory) :
    simpleCell (categoryCell x) := by
  cases x with
  | none => intro ch hch; simp [categoryCell] at hch
  | some c => cases c <;> decide

lemma parseRowCells_rowCells (r : VRow) :
    parseRowCells (rowCells r) = some r := by
  rw [rowCells, parseRowCells, parseCategoryCell_categoryCell,
    Option.map_some']
  congr 1
  have hname : String.mk r.Name.data = r.Name := rfl
  rw [hname, parseValueCell_valueCell, parseValueCell_valueCell,
    parseValueCell_valueCell, parseValueCell_valueCell,
    parseValueCell_valueCell, parseValueCell_valueCell,
    parseValueCell_valueCell, parseValueCell_valueCell,
    parseValueCell_valueCell, parseValueCell_valueCell,
    parseValueCell_valueCell]

lemma rowCells_ne_nil (r : VRow) : rowCells r ≠ [] := by
  rw [rowCells]
  simp

lemma rowCells_simple {r : VRow} (h : simpleCell r.Name.data) :
    ∀ cell ∈ rowCells r, simpleCell cell := by
  intro cell hcell
  rw [rowCells] at hcell
  simp only [List.mem_cons, List.not_mem_nil, or_false] at hcell
  rcases hcell with rfl | rfl | rfl | rfl | rfl | rfl | rfl | rfl | rfl |
    rfl | rfl | rfl | rfl
  · exact h
  · exact simpleCell_valueCell _
  · exact simpleCell_valueCell _
  · exact simpleCell_valueCell _
  · exact simpleCell_valueCell _
  · exact simpleCell_valueCell _
  · exact simpleCell_valueCell _
  · exact simpleCell_valueCell _
  · exact simpleCell_valueCell _
  · exact simpleCell_valueCell _
  · exact simpleCell_valueCell _
  · exact simpleCell_categoryCell _
  · exact simpleCell_valueCell _

lemma exportHeader_simple : ∀ cell ∈ exportHeader, simpleCell cell := by
  decide

lemma mapM_parseRowCells (v : List VRow) :
    (v.map rowCells).mapM parseRowCells = some v := by
  induction v with
  | nil => rfl
  | cons r v ih =>
    rw [List.map_cons, List.mapM_cons, parseRowCells_rowCells, ih]
    rfl

/-- Decoding the exporter's output of a simple-named view yields the header
then exactly the view's row cells. -/
lemma csvDecode_convert {v : List VRow}
    (hn : ∀ r ∈ v, simpleCell r.Name.data) :
    csvDecode (convert_df_to_csv v) = exportHeader :: v.map rowCells := by
  rw [convert_df_to_csv]
  apply csvDecode_csvEncode
  · intro row hrow cell hcell
    rcases List.mem_cons.mp hrow with rfl | hrow'
    · exact exportHeader_simple cell hcell
    · rcases List.mem_map.mp hrow' with ⟨r, hr, rfl⟩
      exact rowCells_simple (hn r hr) cell hcell
  · intro row hrow
    rcases List.mem_cons.mp hrow with rfl | hrow'
    · rw [exportHeader]; simp [loadedHeader]
    · rcases List.mem_map.mp hrow' with ⟨r, hr, rfl⟩
      exact rowCells_ne_nil r

/-- Claim C5: serialize-then-parse is the identity on a filtered view's
content — parsing the exporter's output reproduces exactly the rows and field
values of the view (field values compared through the declared injective
numeric rendering), for every view whose name cells need no quoting. -/
theorem C5_export_round_trip (v : List VRow)
    (hn : ∀ r ∈ v, simpleCell r.Name.data) :
    parseTransferable (convert_df_to_csv v) = some v := by
  have hd := csvDecode_convert hn
  unfold parseTransferable
  rw [hd]
  show (if exportHeader = exportHeader then (v.map rowCells).mapM parseRowCells
    else none) = some v
  rw [if_pos rfl, mapM_parseRowCells]

/-- Witness for C5 at a concrete one-row view. -/
theorem C5_export_round_trip_witness :
    parseTransferable (convert_df_to_csv demoExportView) =
      some demoExportView :=
  C5_export_round_trip demoExportView (by decide)

/-- Counterexample to C4 as stated: already on the empty view, the exported
header is not the loaded table's schema — it carries the extra
`Rel_Strength_perKg` column added by tab 2 before export. -/
theorem C4_counterexample :
    csvDecode (convert_df_to_csv (tab2View
        (filterTable (load_data []) [] CatFilter.All))) = [exportHeader] ∧
    exportHeader ≠ loadedHeader := by
  constructor
  · have h0 : tab2View (filterTable (load_data []) [] CatFilter.All) =
        ([] : List VRow) := rfl
    rw [h0]
    have hd := @csvDecode_convert [] (by intro r hr; simp at hr)
    simpa using hd
  · decide

/-- Claim C4 amended: the exporter serializes the view it receives as
delimited text with one header line plus one line per record, in a
deterministic column order — but that order is the loaded table's schema with
the derived `Rel_Strength_perKg` column appended (one column added relative
to the loaded schema; none dropped or reordered). -/
theorem C4_amended_export_schema (t : List Row) (S : List String)
    (C : CatFilter) (hn : ∀ r ∈ t, simpleCell r.Name.data) :
    csvDecode (convert_df_to_csv (tab2View (filterTable (load_data t) S C))) =
      exportHeader ::
        (tab2View (filterTable (load_data t) S C)).map rowCells ∧
    exportHeader = loadedHeader ++ ["Rel_Strength_perKg".data] ∧
    (csvDecode (convert_df_to_csv
        (tab2View (filterTable (load_data t) S C)))).length =
      (tab2View (filterTable (load_data t) S C)).length + 1 := by
  have hnames : ∀ r' ∈ tab2View (filterTable (load_data t) S C),
      simpleCell r'.Name.data := by
    intro r' hr'
    have hperm : (tab2View (filterTable (load_data t) S C)).Perm
        ((filterTable (load_data t) S C).map addRelStrength) :=
      List.perm_insertionSort nameLE _
    have hr2 : r' ∈ (filterTable (load_data t) S C).map addRelStrength :=
      hperm.mem_iff.mp hr'
    rcases List.mem_map.mp hr2 with ⟨r0, hr0, rfl⟩
    rw [filterTable_eq_filter] at hr0
    have hr3 : r0 ∈ load_data t := (List.mem_filter.mp hr0).1
    rcases List.mem_map.mp hr3 with ⟨r1, hr1, rfl⟩
    exact hn r1 hr1
  have hd := csvDecode_convert hnames
  refine ⟨hd, rfl, ?_⟩
  rw [hd]
  simp

/-- Witness for C4's amended statement at a concrete one-row table. -/
theorem C4_amended_export_schema_witness :
    exportHeader = loadedHeader ++ ["Rel_Strength_perKg".data] ∧
    (csvDecode (convert_df_to_csv (tab2View (filterTable
        (load_data [blankRow "Avery"]) ["Avery"] CatFilter.All)))).length =
      (tab2View (filterTable (load_data [blankRow "Avery"]) ["Avery"]
        CatFilter.All)).length + 1 :=
  ⟨(C4_amended_export_schema [blankRow "Avery"] ["Avery"] CatFilter.All
      (by decide)).2.1,
   (C4_amended_export_schema [blankRow "Avery"] ["Avery"] CatFilter.All
      (by decide)).2.2⟩

end MovementLab
